import Mathlib

/-!
Verification of the search-engine front end's fetch/retry kernel.

The definitions below are a shallow embedding of the repository's
TypeScript source:
* `src/components/search/ai-summary.tsx` — AI summary fetch with
  credential rotation (`API_KEYS`, `fetchSummary`, `renderMarkdown`);
* `src/components/search-results.tsx` (full revision, `src/unnamed/part_002`)
  — text search fetch (`fetchResults`), content fetch (`fetchPageContent`)
  and the rendered view states;
* `src/components/search/image-search.tsx` — image search fetch;
* `src/components/search-interface.tsx` (revision `src/unnamed/part_001`)
  — form submission (`handleSearch`).

Asynchronous effects are embedded as explicit traces: the network
environment is a list of responses (one per issued request), and each
fetcher is a function from that environment to the committed view state.
-/

/-- JS `String.prototype.includes`: case-sensitive substring test. -/
def jsIncludes (s pat : String) : Bool :=
  decide (List.IsInfix pat.toList s.toList)

/-- White space as JS `String.prototype.trim` strips it: the ECMAScript
WhiteSpace set (tab, vertical tab, form feed, space, no-break space,
zero-width no-break space, and the Unicode Space_Separator category:
U+1680, U+2000–U+200A, U+202F, U+205F, U+3000) plus the LineTerminator
set (LF, CR, U+2028, U+2029). -/
def isJsWhitespace (c : Char) : Bool :=
  c = ' ' || c = '\t' || c = '\n' || c = '\r' ||
  c = Char.ofNat 11 || c = Char.ofNat 12 ||
  c = Char.ofNat 160 || c = Char.ofNat 5760 ||
  (8192 ≤ c.toNat && c.toNat ≤ 8202) ||
  c = Char.ofNat 8232 || c = Char.ofNat 8233 ||
  c = Char.ofNat 8239 || c = Char.ofNat 8287 ||
  c = Char.ofNat 12288 || c = Char.ofNat 65279

/-- JS `String.prototype.trim`. -/
def jsTrim (s : String) : String :=
  String.mk (((s.toList.dropWhile isJsWhitespace).reverse.dropWhile isJsWhitespace).reverse)

/-- The fixed credential pool, `API_KEYS` in ai-summary.tsx lines 11-19. -/
def API_KEYS : List String :=
  [ "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"
  , "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"
  , "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"
  , "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"
  , "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"
  , "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"
  , "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" ]

/-!
`renderMarkdown` (ai-summary.tsx lines 27-30):

    text.replace(/\*\*(.*?)\*\*/g, "<strong>$1</strong>").replace(/\n/g, "<br/>")

The first `replace` is a global, leftmost, lazy match: at a `**` opener it
looks for the nearest following `**` closer, with the capture `(.*?)`
unable to cross a line terminator (JS `.` without the `s` flag matches no
LineTerminator: LF, CR, U+2028, U+2029).  `findClose` models the search
for the closer: it returns the captured characters and the remainder
after the closer, or `none` if a line terminator or the end of input is
reached first.
-/

/-- The ECMAScript LineTerminator set, which JS `.` never matches. -/
def isLineTerminator (c : Char) : Bool :=
  c = '\n' || c = '\r' || c = Char.ofNat 8232 || c = Char.ofNat 8233

def findClose : List Char → Option (List Char × List Char)
  | [] => none
  | c :: rest =>
    if isLineTerminator c then none
    else if c = '*' ∧ rest.head? = some '*' then some ([], rest.tail)
    else (findClose rest).map fun p => (c :: p.1, p.2)

theorem findClose_length :
    ∀ l inner r, findClose l = some (inner, r) → r.length < l.length := by
  intro l
  induction l with
  | nil => intro inner r h; simp [findClose] at h
  | cons c rest ih =>
    intro inner r h
    simp only [findClose] at h
    split at h
    · simp at h
    · split at h
      · simp only [Option.some.injEq, Prod.mk.injEq] at h
        obtain ⟨-, h2⟩ := h
        subst h2
        simp only [List.length_tail, List.length_cons]
        omega
      · rcases ho : findClose rest with - | ⟨i2, r2⟩ <;> rw [ho] at h
        · simp at h
        · simp only [Option.map_some', Option.some.injEq, Prod.mk.injEq] at h
          obtain ⟨-, h2⟩ := h
          subst h2
          have := ih i2 r2 ho
          simp only [List.length_cons]
          omega

/-- The bold pass of `renderMarkdown`: global lazy replacement of
`**…**` by `<strong>…</strong>`.  When a `**` opener has no closer on
the same line the regex engine advances one character and retries. -/
def boldAux (l : List Char) : List Char :=
  match l with
  | [] => []
  | c :: rest =>
    if c = '*' ∧ rest.head? = some '*' then
      match h : findClose rest.tail with
      | some (inner, r) =>
          "<strong>".toList ++ inner ++ "</strong>".toList ++ boldAux r
      | none => c :: boldAux rest
    else c :: boldAux rest
termination_by l.length
decreasing_by
  · have h1 := findClose_length rest.tail inner r h
    have h2 := List.length_tail rest
    simp only [List.length_cons]
    omega
  · simp only [List.length_cons]; omega
  · simp only [List.length_cons]; omega

/-- The newline pass of `renderMarkdown`: every `\n` becomes `<br/>`. -/
def brRep : List Char → List Char
  | [] => []
  | c :: rest => (if c = '\n' then "<br/>".toList else [c]) ++ brRep rest

/-- `renderMarkdown` from ai-summary.tsx lines 27-30. -/
def renderMarkdown (text : String) : String :=
  String.mk (brRep (boldAux text.toList))

/-- The summary shown on success (ai-summary.tsx line 88):
`setSummary(renderMarkdown(content.trim()))`. -/
def displayedSummary (content : String) : String :=
  renderMarkdown (jsTrim content)

/-!
The summary fetch (`fetchSummary`, ai-summary.tsx lines 35-111).
One network response per attempt; the environment is the list of
responses, in attempt order.
-/

/-- One settled response of the completion endpoint, as `fetchSummary`
distinguishes them: a non-2xx response carrying the optional
`errorData.error?.message`, or a 2xx response carrying the optional
`data.choices?.[0]?.message?.content` (`none` = field missing or null). -/
inductive SummaryResp where
  | httpFail (msg : Option String)
  | ok (content : Option String)
deriving DecidableEq

/-- What one attempt of `fetchSummary` concludes from a response
(ai-summary.tsx lines 79-86): non-2xx throws the backend message or the
fallback; 2xx with missing, null or empty content throws
"No summary returned"; otherwise the attempt succeeds. -/
def attemptOutcome : SummaryResp → Except String String
  | .httpFail none => .error "AI summary generation failed"
  | .httpFail (some s) =>
      .error (if s = "" then "AI summary generation failed" else s)
  | .ok none => .error "No summary returned"
  | .ok (some c) => if c = "" then .error "No summary returned" else .ok c

/-- Retry classification (ai-summary.tsx lines 94-98): the error message
contains "rate limit", "authentication" or "invalid" as a case-sensitive
substring. -/
def isRetryable (m : String) : Bool :=
  jsIncludes m "rate limit" || jsIncludes m "authentication" || jsIncludes m "invalid"

deriving instance DecidableEq for Except

/-- Trace of one `fetchSummary` invocation chain: the credential index
used by each issued attempt, the delay (ms) before each scheduled retry,
and the committed outcome (`none` while no attempt has settled the chain,
`some (.ok s)` for a committed summary, `some (.error e)` for a committed
error message). -/
structure SummaryRun where
  attempts : List Nat
  delays : List Nat
  outcome : Option (Except String String)
deriving DecidableEq

/-- The recursive retry loop of `fetchSummary` (ai-summary.tsx lines
35-111), driven by the environment's responses.  Attempt `retry` uses
credential index `retry % API_KEYS.length` (line 40).  On a retryable
failure with `retry + 1 < API_KEYS.length` a retry at index `retry + 1`
is scheduled after 800 ms (lines 99-101); on a retryable failure with the
pool exhausted the error "All API keys exhausted. Please try again
later." is committed (line 103); on any other failure the error message
itself (with the JS `||` fallback for an empty message) is committed
(line 106).  On success the rendered summary is committed (line 88). -/
def fetchSummaryRun (retry : Nat) : List SummaryResp → SummaryRun
  | [] => ⟨[], [], none⟩
  | r :: rest =>
    let keyIdx := retry % API_KEYS.length
    match attemptOutcome r with
    | .ok c => ⟨[keyIdx], [], some (.ok (displayedSummary c))⟩
    | .error m =>
      if isRetryable m then
        if retry + 1 < API_KEYS.length then
          let tail := fetchSummaryRun (retry + 1) rest
          ⟨keyIdx :: tail.attempts, 800 :: tail.delays, tail.outcome⟩
        else
          ⟨[keyIdx], [], some (.error "All API keys exhausted. Please try again later.")⟩
      else
        ⟨[keyIdx], [], some (.error (if m = "" then "Failed to generate AI summary" else m))⟩

/-!
Spec-level reading of the markdown transform, for comparison with
`renderMarkdown`: "every occurrence of `**x**` replaced by
`<strong>x</strong>`" taken literally — the lazy closer search is not
blocked by a newline.
-/

/-- Closer search of the spec-level bold replacement: nearest following
`**`, with no newline restriction. -/
def findCloseSpec : List Char → Option (List Char × List Char)
  | [] => none
  | c :: rest =>
    if c = '*' ∧ rest.head? = some '*' then some ([], rest.tail)
    else (findCloseSpec rest).map fun p => (c :: p.1, p.2)

theorem findCloseSpec_length :
    ∀ l inner r, findCloseSpec l = some (inner, r) → r.length < l.length := by
  intro l
  induction l with
  | nil => intro inner r h; simp [findCloseSpec] at h
  | cons c rest ih =>
    intro inner r h
    simp only [findCloseSpec] at h
    split at h
    · simp only [Option.some.injEq, Prod.mk.injEq] at h
      obtain ⟨-, h2⟩ := h
      subst h2
      simp only [List.length_tail, List.length_cons]
      omega
    · rcases ho : findCloseSpec rest with - | ⟨i2, r2⟩ <;> rw [ho] at h
      · simp at h
      · simp only [Option.map_some', Option.some.injEq, Prod.mk.injEq] at h
        obtain ⟨-, h2⟩ := h
        subst h2
        have := ih i2 r2 ho
        simp only [List.length_cons]
        omega

/-- Spec-level bold replacement: global leftmost-shortest replacement of
`**…**` by `<strong>…</strong>`, with the content unrestricted. -/
def boldSpec (l : List Char) : List Char :=
  match l with
  | [] => []
  | c :: rest =>
    if c = '*' ∧ rest.head? = some '*' then
      match h : findCloseSpec rest.tail with
      | some (inner, r) =>
          "<strong>".toList ++ inner ++ "</strong>".toList ++ boldSpec r
      | none => c :: boldSpec rest
    else c :: boldSpec rest
termination_by l.length
decreasing_by
  · have h1 := findCloseSpec_length rest.tail inner r h
    simp only [List.length_tail, List.length_cons] at h1 ⊢
    omega
  · simp only [List.length_cons]; omega
  · simp only [List.length_cons]; omega

/-- Spec-level reading of the whole transform with unrestricted bold
content: bold replacement, then newline replacement, on the trimmed
completion text. -/
def displayedSummarySpec (content : String) : String :=
  String.mk (brRep (boldSpec (jsTrim content).toList))

/-- How a line terminator is rendered in the output: a newline becomes
`<br/>` (the second `replace`), the other terminators pass through
(helper for the amended reading of the markdown transform). -/
def termRep (c : Char) : List Char :=
  if c = '\n' then "<br/>".toList else [c]

/-- Separator-preserving split at line terminators: the leading
terminator-free segment, followed by each terminator paired with the
segment after it (helper for the amended reading of the markdown
transform). -/
def segsLT : List Char → List Char × List (Char × List Char)
  | [] => ([], [])
  | c :: rest =>
    if isLineTerminator c then ([], (c, (segsLT rest).1) :: (segsLT rest).2)
    else (c :: (segsLT rest).1, (segsLT rest).2)

/-- Amended reading of the markdown transform: split the trimmed text at
line terminators (LF, CR, U+2028, U+2029), apply the spec-level bold
replacement within each terminator-free segment — bold spans never cross
a line terminator — and rejoin, rendering each newline as `<br/>` and
keeping the other terminators as they are. -/
def displayedSummaryAmended (content : String) : String :=
  String.mk (boldSpec (segsLT (jsTrim content).toList).1 ++
    ((segsLT (jsTrim content).toList).2.map
      fun p => termRep p.1 ++ boldSpec p.2).flatten)

/-!
The text search fetch (`fetchResults` in the full `SearchResults`
revision, `src/unnamed/part_002` lines 53-92) and its rendered states.
-/

/-- One text search result (`interface Result`, part_002 lines 16-27).
The open-ended `features` bag is embedded as a key/value list. -/
structure TextResult where
  id : String
  title : String
  snippet : String
  url : String
  source : String
  domain : String
  position : Int
  features : List (String × String)
deriving DecidableEq

/-- Decoded body of a search response as `fetchResults` consumes it:
each field is optional (`none` = absent or null; for `results`, also
"not an array").  `execution_time` is numeric metadata whose value the
claims never inspect; it is embedded as a natural number. -/
structure SearchPayload where
  results : Option (List TextResult)
  total_results : Option Nat
  execution_time : Option Nat
  error : Option String
deriving DecidableEq

/-- A settled `fetch` as the fetchers distinguish it: non-2xx status,
a rejected `res.json()` carrying its message, or a decoded body. -/
inductive FetchResp (π : Type) where
  | httpFail (status : Nat)
  | jsonFail (msg : String)
  | payload (p : π)
deriving DecidableEq

/-- The `SearchResults` state slices written by `fetchResults`
(part_002 lines 43-47). -/
structure ResultsState where
  results : List TextResult
  loading : Bool
  error : Option String
  totalResults : Nat
  executionTime : Nat
deriving DecidableEq

/-- JS truthiness of a nullable string: not null and not empty. -/
def strTruthy : Option String → Bool
  | some s => !s.isEmpty
  | none => false

/-- JS `a || b` for a nullable number: `b` when `a` is absent or 0. -/
def jsOrNat (v : Option Nat) (dflt : Nat) : Nat :=
  match v with
  | some n => if n = 0 then dflt else n
  | none => dflt

/-- One full settlement of `fetchResults` (part_002 lines 57-89): the
state after `setLoading(true); setError(null)`, the response handling,
the `catch`, and the `finally`. -/
def fetchResultsSettle (st : ResultsState) (resp : FetchResp SearchPayload) :
    ResultsState :=
  let st := { st with loading := true, error := none }
  match resp with
  | .httpFail status =>
      { st with error := some ("HTTP error! status: " ++ toString status),
                results := [], loading := false }
  | .jsonFail m =>
      { st with error := some (if m = "" then "Something went wrong." else m),
                results := [], loading := false }
  | .payload p =>
      match p.results with
      | some rs =>
          { st with results := rs,
                    totalResults := jsOrNat p.total_results rs.length,
                    executionTime := jsOrNat p.execution_time 0,
                    error := if strTruthy p.error then p.error else none,
                    loading := false }
      | none =>
          { st with error := some "Unexpected data format from API",
                    results := [], loading := false }

/-- The error panel renders iff `error` is truthy (part_002 line 236). -/
def errorShown (st : ResultsState) : Bool :=
  strTruthy st.error

/-- The no-results panel renders iff `!loading && !error &&
results.length === 0` (part_002 line 243). -/
def noResultsShown (st : ResultsState) : Bool :=
  !st.loading && !strTruthy st.error && st.results.isEmpty

/-- A settled text search fetch that takes the `catch` path. -/
def fetchFailed (resp : FetchResp SearchPayload) : Bool :=
  match resp with
  | .httpFail _ => true
  | .jsonFail _ => true
  | .payload p => p.results.isNone

/-!
The image search fetch (`fetchResults` in `ImageSearchResults`,
image-search.tsx lines 50-79): identical settlement logic over the
image payload.
-/

/-- One image result (`interface ImageResult`, image-search.tsx
lines 13-24). -/
structure ImageResult where
  id : String
  url : String
  thumbnail_url : String
  title : String
  source_url : String
  source_domain : String
  width : Option Nat
  height : Option Nat
  alt_text : String
  position : Int
deriving DecidableEq

/-- Decoded body of an image search response. -/
structure ImagePayload where
  results : Option (List ImageResult)
  total_results : Option Nat
  execution_time : Option Nat
  error : Option String
deriving DecidableEq

/-- The `ImageSearchResults` state slices written by its fetch
(image-search.tsx lines 39-43). -/
structure ImageState where
  results : List ImageResult
  loading : Bool
  error : Option String
  totalResults : Nat
  executionTime : Nat
deriving DecidableEq

/-- One full settlement of the image search fetch (image-search.tsx
lines 50-79). -/
def fetchImageSettle (st : ImageState) (resp : FetchResp ImagePayload) :
    ImageState :=
  let st := { st with loading := true, error := none }
  match resp with
  | .httpFail status =>
      { st with error := some ("HTTP error! status: " ++ toString status),
                results := [], loading := false }
  | .jsonFail m =>
      { st with error := some (if m = "" then "Something went wrong." else m),
                results := [], loading := false }
  | .payload p =>
      match p.results with
      | some rs =>
          { st with results := rs,
                    totalResults := jsOrNat p.total_results rs.length,
                    executionTime := jsOrNat p.execution_time 0,
                    error := if strTruthy p.error then p.error else none,
                    loading := false }
      | none =>
          { st with error := some "Unexpected data format from API",
                    results := [], loading := false }

/-!
The content fetch (`fetchPageContent`, part_002 lines 94-120).
-/

/-- Decoded body of a content response: `content` is `none` when
`data.content` is absent or falsy, otherwise it carries the optional
`data.content.content` string. -/
structure ContentPayload where
  content : Option (Option String)
  error : Option String
deriving DecidableEq

/-- What one settlement of `fetchPageContent` does: commit a content
view to state, raise a browser `alert` dialog, or nothing at all. -/
inductive ContentOutcome where
  | shown (url content : String)
  | alerted (msg : String)
  | silent
deriving DecidableEq

/-- One settlement of `fetchPageContent(url)` (part_002 lines 96-119):
non-2xx and decode failures are caught and reported via
`alert`; a body with a truthy `content` commits the view (with the
"No content extracted" fallback); a body with only a truthy `error`
throws it into the same `alert`; any other body does nothing. -/
def fetchPageContentSettle (url : String) (resp : FetchResp ContentPayload) :
    ContentOutcome :=
  match resp with
  | .httpFail status =>
      .alerted ("Failed to fetch page content: HTTP error! status: " ++ toString status)
  | .jsonFail m => .alerted ("Failed to fetch page content: " ++ m)
  | .payload p =>
      match p.content with
      | some inner =>
          .shown url
            (match inner with
             | some s => if s = "" then "No content extracted" else s
             | none => "No content extracted")
      | none =>
          match p.error with
          | some e =>
              if e = "" then .silent
              else .alerted ("Failed to fetch page content: " ++ e)
          | none => .silent

/-- The `SearchResults` state slices touched by `fetchPageContent`
(part_002 lines 49-50). -/
structure ContentState where
  loadingContent : Bool
  contentView : Option (String × String)
deriving DecidableEq

/-- An event of a content-view session: a call of `fetchPageContent`
for a URL, or the settlement of the awaited fetch for a URL captured at
call time. -/
inductive ContentEvent where
  | call (url : String)
  | settle (url : String) (resp : FetchResp ContentPayload)
deriving DecidableEq

/-- Effect of one event on the content-view state.  A call sets
`loadingContent` (part_002 line 95); a settlement commits its outcome —
unconditionally, with no comparison against any current request
identity — and clears `loadingContent` (line 118). -/
def contentStep (st : ContentState) (e : ContentEvent) : ContentState :=
  match e with
  | .call _ => { st with loadingContent := true }
  | .settle url resp =>
      let st' :=
        match fetchPageContentSettle url resp with
        | .shown u c => { st with contentView := some (u, c) }
        | _ => st
      { st' with loadingContent := false }

/-- A content-view session from the initial state (part_002 lines
49-50: `contentView = null`, `loadingContent = false`). -/
def runContent (evs : List ContentEvent) : ContentState :=
  evs.foldl contentStep ⟨false, none⟩

/-!
Form submission (`handleSearch` in `SearchInterface`,
`src/unnamed/part_001`; the stripped revision
`src/components/search-interface.tsx` lines 28-34 is identical except
that it lacks the `submittedQuery` slice).
-/

/-- The `SearchInterface` state slices (part_001). -/
structure InterfaceState where
  searchQuery : String
  activeFeature : String
  showResults : Bool
  submittedQuery : String
deriving DecidableEq

/-- `handleSearch`: only a non-empty trimmed draft commits the submitted
query and shows results; otherwise nothing happens. -/
def handleSearch (st : InterfaceState) : InterfaceState :=
  if (jsTrim st.searchQuery) ≠ "" then
    { st with submittedQuery := jsTrim st.searchQuery, showResults := true }
  else st

/-- The `AiSummary` effect guard (ai-summary.tsx line 33):
`if (!query) return` — no fetch for an empty query. -/
def aiSummaryFetchGuard (query : String) : Bool :=
  !query.isEmpty

/-- The `AiSummary` render guard (ai-summary.tsx line 116):
`if (!query) return null` — nothing rendered for an empty query. -/
def aiSummaryRenderGuard (query : String) : Bool :=
  !query.isEmpty

/-!
The request URL of the text search fetch (part_002 line 63).
-/

/-- UTF-8 bytes of a code point. -/
def utf8Bytes (n : Nat) : List Nat :=
  if n < 0x80 then [n]
  else if n < 0x800 then [0xC0 + n / 64, 0x80 + n % 64]
  else if n < 0x10000 then
    [0xE0 + n / 4096, 0x80 + (n / 64) % 64, 0x80 + n % 64]
  else
    [0xF0 + n / 262144, 0x80 + (n / 4096) % 64, 0x80 + (n / 64) % 64, 0x80 + n % 64]

/-- Upper-case hex digit. -/
def hexDigit (d : Nat) : Char :=
  if d < 10 then Char.ofNat (48 + d) else Char.ofNat (55 + d)

/-- Percent-encoding of one byte. -/
def percentEncodeByte (b : Nat) : List Char :=
  ['%', hexDigit (b / 16), hexDigit (b % 16)]

/-- Characters JS `encodeURIComponent` leaves unescaped. -/
def isUnreservedURI (c : Char) : Bool :=
  c.isAlphanum || ['-', '_', '.', '!', '~', '*', Char.ofNat 39, '(', ')'].contains c

/-- JS `encodeURIComponent`. -/
def encodeURIComponent (s : String) : String :=
  String.mk ((s.toList.map fun c =>
    if isUnreservedURI c then [c]
    else ((utf8Bytes c.toNat).map percentEncodeByte).flatten).flatten)

/-- The URL string the text search fetch passes to `fetch` (part_002
line 63), byte for byte. -/
def searchRequestUrl (query engine : String) (numResults : Nat) : String :=
  "http://https://azizah.onrender.com/api/search/?query=" ++
    encodeURIComponent query ++ "&search_engine=" ++ engine ++
    "&num_results=" ++ toString numResults

/-!
Theorems.
-/

theorem API_KEYS_length : API_KEYS.length = 7 := rfl

/-- A run every response of which is a retryable failure walks the whole
pool from index `k` and ends in the exhausted-pool error. -/
theorem fetchSummaryRun_allRetry (resps : List SummaryResp) :
    ∀ k, k < 7 → 7 - k ≤ resps.length →
    (∀ r ∈ resps, ∃ m, attemptOutcome r = Except.error m ∧ isRetryable m = true) →
    fetchSummaryRun k resps =
      ⟨List.range' k (7 - k), List.replicate (6 - k) 800,
       some (Except.error "All API keys exhausted. Please try again later.")⟩ := by
  induction resps with
  | nil => intro k hk hlen _; simp at hlen; omega
  | cons r rest ih =>
    intro k hk hlen hfail
    obtain ⟨m, hm, hret⟩ := hfail r (List.mem_cons_self r rest)
    by_cases hk1 : k + 1 < 7
    · have hrec := ih (k + 1) hk1 (by simp at hlen ⊢; omega)
        (fun r' hr' => hfail r' (List.mem_cons_of_mem r hr'))
      have h7 : 7 - k = (7 - (k + 1)) + 1 := by omega
      have h6 : 6 - k = (6 - (k + 1)) + 1 := by omega
      simp only [fetchSummaryRun, hm, hret, API_KEYS_length, if_pos hk1, if_pos rfl,
        hrec, h7, h6, List.range'_succ, List.replicate_succ, if_true,
        Nat.mod_eq_of_lt hk]
    · have hk6 : k = 6 := by omega
      subst hk6
      simp [fetchSummaryRun, hm, hret, API_KEYS_length]

/-- C1: with the pool of 7 credentials, a run in which every attempt
fails with a retryable error makes exactly 7 attempts, using credential
indices 0,1,…,6 in order, and ends with the error "All API keys
exhausted. Please try again later."; a run whose first attempt fails
with a non-retryable error makes exactly 1 attempt (credential index 0)
and reports that error message. -/
theorem summary_credential_exhaustion :
    (∀ resps : List SummaryResp, 7 ≤ resps.length →
      (∀ r ∈ resps, ∃ m, attemptOutcome r = Except.error m ∧ isRetryable m = true) →
      fetchSummaryRun 0 resps =
        ⟨[0, 1, 2, 3, 4, 5, 6], [800, 800, 800, 800, 800, 800],
         some (Except.error "All API keys exhausted. Please try again later.")⟩) ∧
    (∀ (r : SummaryResp) (rest : List SummaryResp) (m : String),
      attemptOutcome r = Except.error m → isRetryable m = false →
      fetchSummaryRun 0 (r :: rest) =
        ⟨[0], [],
         some (Except.error (if m = "" then "Failed to generate AI summary" else m))⟩) := by
  constructor
  · intro resps hlen hfail
    have := fetchSummaryRun_allRetry resps 0 (by omega) (by omega) hfail
    simpa using this
  · intro r rest m hm hret
    simp [fetchSummaryRun, hm, hret]

/-- Witness for C1: seven rate-limit failures exhaust the pool; one
non-retryable failure stops after a single attempt. -/
theorem summary_credential_exhaustion_witness :
    fetchSummaryRun 0 (List.replicate 7 (SummaryResp.httpFail (some "rate limit reached"))) =
      ⟨[0, 1, 2, 3, 4, 5, 6], [800, 800, 800, 800, 800, 800],
       some (Except.error "All API keys exhausted. Please try again later.")⟩ ∧
    fetchSummaryRun 0 [SummaryResp.httpFail (some "internal server error")] =
      ⟨[0], [], some (Except.error "internal server error")⟩ := by
  constructor
  · exact summary_credential_exhaustion.1 _ (by decide)
      (fun r hr => by
        rw [List.eq_of_mem_replicate hr]
        exact ⟨"rate limit reached", rfl, by decide⟩)
  · have := summary_credential_exhaustion.2
      (SummaryResp.httpFail (some "internal server error")) [] "internal server error"
      rfl (by decide)
    simpa using this

/-- C2: after a failed attempt at credential index `k`, a retry is
scheduled iff the error message contains "rate limit", "authentication"
or "invalid" (case-sensitive substring) and `k + 1` is still inside the
pool; the retry runs after a fixed 800 ms delay at credential index
`k + 1`; a non-retryable failure or pool exhaustion commits a terminal
error with no retry. -/
theorem summary_retry_policy (k : Nat) (r : SummaryResp) (rest : List SummaryResp)
    (m : String) (hm : attemptOutcome r = Except.error m) :
    ((fetchSummaryRun k (r :: rest)).delays ≠ [] ↔
      isRetryable m = true ∧ k + 1 < API_KEYS.length) ∧
    (isRetryable m = true → k + 1 < API_KEYS.length →
      fetchSummaryRun k (r :: rest) =
        ⟨k % API_KEYS.length :: (fetchSummaryRun (k + 1) rest).attempts,
         800 :: (fetchSummaryRun (k + 1) rest).delays,
         (fetchSummaryRun (k + 1) rest).outcome⟩) ∧
    (∀ (j : Nat) (x : SummaryResp) (xs : List SummaryResp),
      (fetchSummaryRun j (x :: xs)).attempts.head? = some (j % API_KEYS.length)) ∧
    (isRetryable m = true → ¬ k + 1 < API_KEYS.length →
      fetchSummaryRun k (r :: rest) =
        ⟨[k % API_KEYS.length], [],
         some (Except.error "All API keys exhausted. Please try again later.")⟩) ∧
    (isRetryable m = false →
      fetchSummaryRun k (r :: rest) =
        ⟨[k % API_KEYS.length], [],
         some (Except.error (if m = "" then "Failed to generate AI summary" else m))⟩) ∧
    (∀ s, isRetryable s =
      (jsIncludes s "rate limit" || jsIncludes s "authentication" || jsIncludes s "invalid")) := by
  refine ⟨?_, ?_, ?_, ?_, ?_, fun s => rfl⟩
  · by_cases h1 : isRetryable m <;> by_cases h2 : k + 1 < API_KEYS.length <;>
      simp [fetchSummaryRun, hm, h1, h2]
  · intro h1 h2; simp [fetchSummaryRun, hm, h1, h2]
  · intro j x xs
    rcases hox : attemptOutcome x with m' | c
    · by_cases h1 : isRetryable m' <;> by_cases h2 : j + 1 < API_KEYS.length <;>
        simp [fetchSummaryRun, hox, h1, h2]
    · simp [fetchSummaryRun, hox]
  · intro h1 h2; simp [fetchSummaryRun, hm, h1, h2]
  · intro h1; simp [fetchSummaryRun, hm, h1]

/-- Witness for C2: an "invalid api key" failure at index 0 schedules an
800 ms retry that succeeds at credential index 1. -/
theorem summary_retry_policy_witness :
    (fetchSummaryRun 0
        [SummaryResp.httpFail (some "invalid api key"), SummaryResp.ok (some "S")]).delays ≠ [] ∧
    fetchSummaryRun 0
        [SummaryResp.httpFail (some "invalid api key"), SummaryResp.ok (some "S")] =
      ⟨[0, 1], [800], some (Except.ok (displayedSummary "S"))⟩ := by
  have h := summary_retry_policy 0 (SummaryResp.httpFail (some "invalid api key"))
    [SummaryResp.ok (some "S")] "invalid api key" rfl
  constructor
  · exact h.1.mpr ⟨by decide, by decide⟩
  · have h2 := h.2.1 (by decide) (by decide)
    rw [h2]
    simp [fetchSummaryRun, attemptOutcome, API_KEYS_length]

/-- C9: a 2xx completion response whose `choices[0].message.content` is
missing, null or empty fails the attempt with "No summary returned";
that message matches no retryable substring, so the run terminates after
exactly one attempt with that error and no credential rotation. -/
theorem summary_missing_content_terminal (c : Option String) (rest : List SummaryResp)
    (hc : c = none ∨ c = some "") :
    fetchSummaryRun 0 (SummaryResp.ok c :: rest) =
      ⟨[0], [], some (Except.error "No summary returned")⟩ ∧
    isRetryable "No summary returned" = false := by
  have hnr : isRetryable "No summary returned" = false := by decide
  refine ⟨?_, hnr⟩
  rcases hc with h | h <;> subst h <;>
    simp [fetchSummaryRun, attemptOutcome, hnr]

/-- Witness for C9: a response with empty content stops after one
attempt with "No summary returned". -/
theorem summary_missing_content_terminal_witness :
    fetchSummaryRun 0 [SummaryResp.ok (some "")] =
      ⟨[0], [], some (Except.error "No summary returned")⟩ ∧
    isRetryable "No summary returned" = false :=
  summary_missing_content_terminal (some "") [] (Or.inr rfl)

/-- C3: submitting the form with an empty or whitespace-only draft query
changes nothing — `handleSearch` is the identity on the whole interface
state (in particular `submittedQuery` and `showResults` are unchanged,
so no state-keyed fetch effect fires) — and `AiSummary` neither fetches
nor renders for an empty query. -/
theorem empty_query_noop (st : InterfaceState) (h : jsTrim st.searchQuery = "") :
    handleSearch st = st ∧
    aiSummaryFetchGuard "" = false ∧
    aiSummaryRenderGuard "" = false := by
  refine ⟨?_, rfl, rfl⟩
  simp [handleSearch, h]

/-- Witness for C3: a whitespace-only draft — including the ideographic
space U+3000 from the Space_Separator category — is a no-op. -/
theorem empty_query_noop_witness :
    handleSearch ⟨" \t\u3000", "search", false, ""⟩ =
      ⟨" \t\u3000", "search", false, ""⟩ ∧
    aiSummaryFetchGuard "" = false ∧
    aiSummaryRenderGuard "" = false :=
  empty_query_noop ⟨" \t\u3000", "search", false, ""⟩ (by decide)

/-- C4: a decoded search payload with an empty results array and a null
error field settles into the no-results rendering, which is disjoint
from the error rendering: the error panel shows only when an error
message is set, the no-results panel only when loading is over, no error
is set and the result list is empty. -/
theorem empty_results_rendering (st : ResultsState) (t e : Option Nat) :
    noResultsShown (fetchResultsSettle st (FetchResp.payload ⟨some [], t, e, none⟩)) = true ∧
    errorShown (fetchResultsSettle st (FetchResp.payload ⟨some [], t, e, none⟩)) = false ∧
    (∀ s : ResultsState, errorShown s = true → s.error ≠ none) ∧
    (∀ s : ResultsState, noResultsShown s = true →
      s.loading = false ∧ strTruthy s.error = false ∧ s.results = []) := by
  refine ⟨?_, ?_, ?_, ?_⟩
  · simp [fetchResultsSettle, noResultsShown, strTruthy]
  · simp [fetchResultsSettle, errorShown, strTruthy]
  · intro s hs hn
    simp [errorShown, strTruthy, hn] at hs
  · intro s hs
    simp only [noResultsShown, Bool.and_eq_true, Bool.not_eq_true', List.isEmpty_iff] at hs
    exact ⟨hs.1.1, hs.1.2, hs.2⟩

/-- Witness for C4: the empty-results payload from the initial state. -/
theorem empty_results_rendering_witness :
    noResultsShown (fetchResultsSettle ⟨[], false, none, 0, 0⟩
      (FetchResp.payload ⟨some [], none, none, none⟩)) = true ∧
    errorShown (fetchResultsSettle ⟨[], false, none, 0, 0⟩
      (FetchResp.payload ⟨some [], none, none, none⟩)) = false :=
  ⟨(empty_results_rendering ⟨[], false, none, 0, 0⟩ none none).1,
   (empty_results_rendering ⟨[], false, none, 0, 0⟩ none none).2.1⟩

/-- C10: every failed text search fetch settles with the result list
cleared and an error message set, in the same settlement step — no stale
results can be shown next to the error. -/
theorem failed_fetch_clears_results (st : ResultsState) (resp : FetchResp SearchPayload)
    (h : fetchFailed resp = true) :
    (fetchResultsSettle st resp).results = [] ∧
    ∃ m, (fetchResultsSettle st resp).error = some m := by
  rcases resp with s | m | p
  · exact ⟨rfl, _, rfl⟩
  · exact ⟨rfl, _, rfl⟩
  · have hp : p.results = none := by
      simpa [fetchFailed, Option.isNone_iff_eq_none] using h
    rcases p with ⟨pr, pt, pe, per⟩
    simp only at hp
    subst hp
    exact ⟨rfl, _, rfl⟩

/-- Witness for C10: an HTTP 500 clears a previously filled list. -/
theorem failed_fetch_clears_results_witness :
    (fetchResultsSettle
      ⟨[⟨"1", "t", "s", "u", "google", "d", 1, []⟩], false, none, 1, 0⟩
      (FetchResp.httpFail 500)).results = [] ∧
    ∃ m, (fetchResultsSettle
      ⟨[⟨"1", "t", "s", "u", "google", "d", 1, []⟩], false, none, 1, 0⟩
      (FetchResp.httpFail 500)).error = some m :=
  failed_fetch_clears_results _ (FetchResp.httpFail 500) rfl

/-- C5 counterexample: a content fetch that fails with HTTP 500 leaves
the content fetcher's local view state exactly as it started — the
message goes to a global `alert` dialog, not to local view state — and a
2xx content payload with neither a content object nor an error field is
swallowed with no report at all. -/
theorem content_error_not_local_state :
    runContent [ContentEvent.call "https://x.test/a",
                ContentEvent.settle "https://x.test/a" (FetchResp.httpFail 500)] =
      ⟨false, none⟩ ∧
    fetchPageContentSettle "https://x.test/a" (FetchResp.httpFail 500) =
      ContentOutcome.alerted "Failed to fetch page content: HTTP error! status: 500" ∧
    fetchPageContentSettle "https://x.test/a" (FetchResp.payload ⟨none, none⟩) =
      ContentOutcome.silent :=
  ⟨rfl, rfl, rfl⟩

/-- C5 amended: the text and image result fetchers turn every failure —
non-2xx status, JSON decode failure, payload without a results array —
into a displayable message carrying the raw status or message in their
local view state; the content fetcher instead reports failures through a
blocking `alert` dialog, and a 2xx payload with neither content nor
error is silently ignored. -/
theorem fetch_error_reporting (st : ResultsState) (ist : ImageState) (s : Nat)
    (m : String) (pT : SearchPayload) (pI : ImagePayload)
    (hT : pT.results = none) (hI : pI.results = none) :
    (fetchResultsSettle st (FetchResp.httpFail s)).error =
      some ("HTTP error! status: " ++ toString s) ∧
    (fetchResultsSettle st (FetchResp.jsonFail m)).error =
      some (if m = "" then "Something went wrong." else m) ∧
    (fetchResultsSettle st (FetchResp.payload pT)).error =
      some "Unexpected data format from API" ∧
    (fetchImageSettle ist (FetchResp.httpFail s)).error =
      some ("HTTP error! status: " ++ toString s) ∧
    (fetchImageSettle ist (FetchResp.jsonFail m)).error =
      some (if m = "" then "Something went wrong." else m) ∧
    (fetchImageSettle ist (FetchResp.payload pI)).error =
      some "Unexpected data format from API" ∧
    (∀ u, fetchPageContentSettle u (FetchResp.httpFail s) =
      ContentOutcome.alerted ("Failed to fetch page content: HTTP error! status: " ++ toString s)) ∧
    (∀ u, fetchPageContentSettle u (FetchResp.jsonFail m) =
      ContentOutcome.alerted ("Failed to fetch page content: " ++ m)) ∧
    (∀ u, fetchPageContentSettle u (FetchResp.payload ⟨none, none⟩) =
      ContentOutcome.silent) := by
  refine ⟨rfl, rfl, ?_, rfl, rfl, ?_, fun u => rfl, fun u => rfl, fun u => rfl⟩
  · simp [fetchResultsSettle, hT]
  · simp [fetchImageSettle, hI]

/-- Witness for C5 (amended): concrete failing responses for all three
fetchers. -/
theorem fetch_error_reporting_witness :
    (fetchResultsSettle ⟨[], false, none, 0, 0⟩ (FetchResp.httpFail 404)).error =
      some ("HTTP error! status: " ++ toString 404) ∧
    (fetchResultsSettle ⟨[], false, none, 0, 0⟩
      (FetchResp.payload ⟨none, none, none, none⟩)).error =
      some "Unexpected data format from API" ∧
    (fetchImageSettle ⟨[], false, none, 0, 0⟩ (FetchResp.httpFail 404)).error =
      some ("HTTP error! status: " ++ toString 404) ∧
    (∀ u, fetchPageContentSettle u
      (FetchResp.jsonFail "Unexpected token < in JSON") =
      ContentOutcome.alerted ("Failed to fetch page content: " ++ "Unexpected token < in JSON")) := by
  have h := fetch_error_reporting ⟨[], false, none, 0, 0⟩ ⟨[], false, none, 0, 0⟩
    404 "Unexpected token < in JSON" ⟨none, none, none, none⟩ ⟨none, none, none, none⟩
    rfl rfl
  exact ⟨h.1, h.2.2.1, h.2.2.2.1, h.2.2.2.2.2.2.2.1⟩

/-- C7: evaluation of the text search request URL at a concrete input —
the string handed to `fetch` carries a second URL scheme inside the
authority ("http://https://…"), so the request is not a well-formed call
to the search backend's endpoint. -/
theorem search_url_double_scheme :
    searchRequestUrl "rust" "google" 10 =
      "http://https://azizah.onrender.com/api/search/?query=rust&search_engine=google&num_results=10" ∧
    (searchRequestUrl "rust" "google" 10).toList.take 15 = "http://https://".toList := by
  exact ⟨by decide, by decide⟩

/-- C8 counterexample: content is requested for URL a, then for URL b,
both before either settles; b settles first, a settles last — and the
state displays the content for a, not b.  No captured-identity
comparison discards the superseded response. -/
theorem stale_content_wins_when_last :
    (runContent
      [ContentEvent.call "https://x.test/a",
       ContentEvent.call "https://x.test/b",
       ContentEvent.settle "https://x.test/b"
         (FetchResp.payload ⟨some (some "content B"), none⟩),
       ContentEvent.settle "https://x.test/a"
         (FetchResp.payload ⟨some (some "content A"), none⟩)]).contentView =
      some ("https://x.test/a", "content A") ∧
    (runContent
      [ContentEvent.call "https://x.test/a",
       ContentEvent.call "https://x.test/b",
       ContentEvent.settle "https://x.test/b"
         (FetchResp.payload ⟨some (some "content B"), none⟩),
       ContentEvent.settle "https://x.test/a"
         (FetchResp.payload ⟨some (some "content A"), none⟩)]).contentView.map
        Prod.fst ≠ some "https://x.test/b" := by
  exact ⟨rfl, by decide⟩

/-- C8 amended: no identity comparison happens at resolution time; each
content settlement that produces a view overwrites the visible state
unconditionally, so after any session the displayed content is that of
the settlement that arrived last, whatever was requested last. -/
theorem content_last_settle_wins (evs : List ContentEvent) (u : String)
    (resp : FetchResp ContentPayload) (c : String)
    (h : fetchPageContentSettle u resp = ContentOutcome.shown u c) :
    (runContent (evs ++ [ContentEvent.settle u resp])).contentView = some (u, c) := by
  unfold runContent
  rw [List.foldl_append]
  simp [contentStep, h]

/-- Witness for C8 (amended): the a-then-b race, a settling last. -/
theorem content_last_settle_wins_witness :
    (runContent
      ([ContentEvent.call "https://x.test/a",
        ContentEvent.call "https://x.test/b",
        ContentEvent.settle "https://x.test/b"
          (FetchResp.payload ⟨some (some "content B"), none⟩)] ++
       [ContentEvent.settle "https://x.test/a"
          (FetchResp.payload ⟨some (some "content A"), none⟩)])).contentView =
      some ("https://x.test/a", "content A") :=
  content_last_settle_wins _ "https://x.test/a"
    (FetchResp.payload ⟨some (some "content A"), none⟩) "content A" rfl


/-!
The markdown transform: relating `boldAux` (the code's regex, whose
capture cannot cross a line terminator) to `boldSpec` (the spec-level
replacement) and to the per-segment amended reading.
-/

theorem no_newline_of_noterm (l : List Char)
    (h : ∀ x ∈ l, isLineTerminator x = false) : '\n' ∉ l := by
  intro hm
  have := h '\n' hm
  simp [isLineTerminator] at this

theorem findClose_decomp :
    ∀ l i r, findClose l = some (i, r) → l = i ++ '*' :: '*' :: r := by
  intro l
  induction l with
  | nil => intro i r h; simp [findClose] at h
  | cons c rest ih =>
    intro i r h
    by_cases hnl : isLineTerminator c = true
    · simp [findClose, hnl] at h
    by_cases hop : c = '*' ∧ rest.head? = some '*'
    · simp only [findClose, if_neg hnl, if_pos hop, Option.some.injEq,
        Prod.mk.injEq] at h
      obtain ⟨h1, h2⟩ := h
      subst h1
      subst h2
      obtain ⟨hc, hh⟩ := hop
      subst hc
      cases rest with
      | nil => simp at hh
      | cons r0 rs =>
        simp only [List.head?_cons, Option.some.injEq] at hh
        subst hh
        simp
    · simp only [findClose, if_neg hnl, if_neg hop] at h
      rcases ho : findClose rest with - | ⟨i2, r2⟩ <;> rw [ho] at h
      · simp at h
      · simp only [Option.map_some', Option.some.injEq, Prod.mk.injEq] at h
        obtain ⟨h1, h2⟩ := h
        subst h1
        subst h2
        have := ih i2 r2 ho
        simp [this]

theorem findCloseSpec_decomp :
    ∀ l i r, findCloseSpec l = some (i, r) → l = i ++ '*' :: '*' :: r := by
  intro l
  induction l with
  | nil => intro i r h; simp [findCloseSpec] at h
  | cons c rest ih =>
    intro i r h
    by_cases hop : c = '*' ∧ rest.head? = some '*'
    · simp only [findCloseSpec, if_pos hop, Option.some.injEq,
        Prod.mk.injEq] at h
      obtain ⟨h1, h2⟩ := h
      subst h1
      subst h2
      obtain ⟨hc, hh⟩ := hop
      subst hc
      cases rest with
      | nil => simp at hh
      | cons r0 rs =>
        simp only [List.head?_cons, Option.some.injEq] at hh
        subst hh
        simp
    · simp only [findCloseSpec, if_neg hop] at h
      rcases ho : findCloseSpec rest with - | ⟨i2, r2⟩ <;> rw [ho] at h
      · simp at h
      · simp only [Option.map_some', Option.some.injEq, Prod.mk.injEq] at h
        obtain ⟨h1, h2⟩ := h
        subst h1
        subst h2
        have := ih i2 r2 ho
        simp [this]

theorem findClose_eq_spec :
    ∀ l, (∀ x ∈ l, isLineTerminator x = false) →
      findClose l = findCloseSpec l := by
  intro l
  induction l with
  | nil => intro _; rfl
  | cons c rest ih =>
    intro hmem
    have hc : ¬ isLineTerminator c = true := by
      simp [hmem c (List.mem_cons_self c rest)]
    have hr : ∀ x ∈ rest, isLineTerminator x = false :=
      fun x m => hmem x (List.mem_cons_of_mem c m)
    simp only [findClose, findCloseSpec, if_neg hc, ih hr]

theorem findClose_append_term :
    ∀ l₁ t l₂, (∀ x ∈ l₁, isLineTerminator x = false) →
      isLineTerminator t = true →
      findClose (l₁ ++ t :: l₂) =
        (findClose l₁).map fun p => (p.1, p.2 ++ t :: l₂) := by
  intro l₁ t l₂
  induction l₁ with
  | nil => intro _ ht; simp [findClose, ht]
  | cons c rest ih =>
    intro hmem ht
    have hc : ¬ isLineTerminator c = true := by
      simp [hmem c (List.mem_cons_self c rest)]
    have hr : ∀ x ∈ rest, isLineTerminator x = false :=
      fun x m => hmem x (List.mem_cons_of_mem c m)
    by_cases hop : c = '*' ∧ rest.head? = some '*'
    · obtain ⟨hc', hr0⟩ := hop
      subst hc'
      cases rest with
      | nil => simp at hr0
      | cons r0 rs =>
        simp only [List.head?_cons, Option.some.injEq] at hr0
        subst hr0
        simp [findClose, isLineTerminator]
    · have hop' : ¬ (c = '*' ∧ (rest ++ t :: l₂).head? = some '*') := by
        rintro ⟨h1, h2⟩
        apply hop
        refine ⟨h1, ?_⟩
        cases rest with
        | nil =>
          simp only [List.nil_append, List.head?_cons, Option.some.injEq] at h2
          rw [h2] at ht
          exact absurd ht (by decide)
        | cons r0 rs => simpa using h2
      have hstep : findClose (c :: (rest ++ t :: l₂)) =
          (findClose (rest ++ t :: l₂)).map fun p => (c :: p.1, p.2) := by
        conv_lhs => rw [findClose]
        rw [if_neg hc, if_neg hop']
      have hstep2 : findClose (c :: rest) =
          (findClose rest).map fun p => (c :: p.1, p.2) := by
        conv_lhs => rw [findClose]
        rw [if_neg hc, if_neg hop]
      rw [List.cons_append, hstep, hstep2, ih hr ht]
      rcases findClose rest with - | ⟨i2, r2⟩ <;> simp

theorem boldAux_nil : boldAux [] = [] := by rw [boldAux]

theorem boldAux_cons_open (c : Char) (rest inner r : List Char)
    (hc : c = '*' ∧ rest.head? = some '*')
    (hf : findClose rest.tail = some (inner, r)) :
    boldAux (c :: rest) =
      "<strong>".toList ++ inner ++ "</strong>".toList ++ boldAux r := by
  rw [boldAux, if_pos hc]
  split
  · next i2 r2 heq =>
    rw [hf] at heq
    simp only [Option.some.injEq, Prod.mk.injEq] at heq
    rw [heq.1, heq.2]
  · next heq => rw [hf] at heq; simp at heq

theorem boldAux_cons_noclose (c : Char) (rest : List Char)
    (hc : c = '*' ∧ rest.head? = some '*')
    (hf : findClose rest.tail = none) :
    boldAux (c :: rest) = c :: boldAux rest := by
  rw [boldAux, if_pos hc]
  split
  · next i2 r2 heq => rw [hf] at heq; simp at heq
  · rfl

theorem boldAux_cons_plain (c : Char) (rest : List Char)
    (hc : ¬ (c = '*' ∧ rest.head? = some '*')) :
    boldAux (c :: rest) = c :: boldAux rest := by
  rw [boldAux, if_neg hc]

theorem boldSpec_nil : boldSpec [] = [] := by rw [boldSpec]

theorem boldSpec_cons_open (c : Char) (rest inner r : List Char)
    (hc : c = '*' ∧ rest.head? = some '*')
    (hf : findCloseSpec rest.tail = some (inner, r)) :
    boldSpec (c :: rest) =
      "<strong>".toList ++ inner ++ "</strong>".toList ++ boldSpec r := by
  rw [boldSpec, if_pos hc]
  split
  · next i2 r2 heq =>
    rw [hf] at heq
    simp only [Option.some.injEq, Prod.mk.injEq] at heq
    rw [heq.1, heq.2]
  · next heq => rw [hf] at heq; simp at heq

theorem boldSpec_cons_noclose (c : Char) (rest : List Char)
    (hc : c = '*' ∧ rest.head? = some '*')
    (hf : findCloseSpec rest.tail = none) :
    boldSpec (c :: rest) = c :: boldSpec rest := by
  rw [boldSpec, if_pos hc]
  split
  · next i2 r2 heq => rw [hf] at heq; simp at heq
  · rfl

theorem boldSpec_cons_plain (c : Char) (rest : List Char)
    (hc : ¬ (c = '*' ∧ rest.head? = some '*')) :
    boldSpec (c :: rest) = c :: boldSpec rest := by
  rw [boldSpec, if_neg hc]

theorem boldSpec_no_newline_aux :
    ∀ n l, l.length ≤ n → '\n' ∉ l → '\n' ∉ boldSpec l := by
  intro n
  induction n with
  | zero =>
    intro l hl _
    have hnil : l = [] := List.eq_nil_of_length_eq_zero (by omega)
    subst hnil
    rw [boldSpec_nil]
    simp
  | succ n ih =>
    intro l hl hmem
    cases l with
    | nil => rw [boldSpec_nil]; simp
    | cons c rest =>
      have hc : ¬ c = '\n' := fun e => hmem (by simp [e])
      have hr : '\n' ∉ rest := fun m => hmem (List.mem_cons_of_mem c m)
      have hlrest : rest.length ≤ n := by
        simp only [List.length_cons] at hl; omega
      by_cases hop : c = '*' ∧ rest.head? = some '*'
      · rcases hf : findCloseSpec rest.tail with - | ⟨inner, r⟩
        · rw [boldSpec_cons_noclose c rest hop hf]
          intro hm
          rcases List.mem_cons.mp hm with h | h
          · exact hc h.symm
          · exact ih rest hlrest hr h
        · rw [boldSpec_cons_open c rest inner r hop hf]
          have hdec := findCloseSpec_decomp rest.tail inner r hf
          have htl : '\n' ∉ rest.tail := by
            cases rest with
            | nil => simp
            | cons r0 rs => exact fun m => hr (List.mem_cons_of_mem r0 m)
          have hinner : '\n' ∉ inner := fun m =>
            htl (by rw [hdec]; exact List.mem_append_left _ m)
          have hrr : '\n' ∉ r := fun m =>
            htl (by rw [hdec]; exact List.mem_append_right _ (by simp [m]))
          have hlen : r.length ≤ n := by
            have h1 := findCloseSpec_length rest.tail inner r hf
            have h2 : rest.tail.length ≤ rest.length := by
              simp only [List.length_tail]; omega
            omega
          intro hm
          simp only [List.mem_append] at hm
          rcases hm with ((h | h) | h) | h
          · exact absurd h (by decide)
          · exact hinner h
          · exact absurd h (by decide)
          · exact ih r hlen hrr h
      · rw [boldSpec_cons_plain c rest hop]
        intro hm
        rcases List.mem_cons.mp hm with h | h
        · exact hc h.symm
        · exact ih rest hlrest hr h

theorem boldSpec_no_newline (l : List Char) (h : '\n' ∉ l) : '\n' ∉ boldSpec l :=
  boldSpec_no_newline_aux l.length l le_rfl h

theorem boldAux_eq_spec_aux :
    ∀ n l, l.length ≤ n → (∀ x ∈ l, isLineTerminator x = false) →
      boldAux l = boldSpec l := by
  intro n
  induction n with
  | zero =>
    intro l hl _
    have hnil : l = [] := List.eq_nil_of_length_eq_zero (by omega)
    subst hnil
    rw [boldAux_nil, boldSpec_nil]
  | succ n ih =>
    intro l hl hmem
    cases l with
    | nil => rw [boldAux_nil, boldSpec_nil]
    | cons c rest =>
      have hr : ∀ x ∈ rest, isLineTerminator x = false :=
        fun x m => hmem x (List.mem_cons_of_mem c m)
      have hlrest : rest.length ≤ n := by
        simp only [List.length_cons] at hl; omega
      by_cases hop : c = '*' ∧ rest.head? = some '*'
      · have htl : ∀ x ∈ rest.tail, isLineTerminator x = false := by
          cases rest with
          | nil => intro x m; exact absurd m (List.not_mem_nil x)
          | cons r0 rs => exact fun x m => hr x (List.mem_cons_of_mem r0 m)
        have hfc := findClose_eq_spec rest.tail htl
        rcases hf : findCloseSpec rest.tail with - | ⟨inner, r⟩
        · rw [boldAux_cons_noclose c rest hop (hfc.trans hf),
            boldSpec_cons_noclose c rest hop hf, ih rest hlrest hr]
        · have hdec := findCloseSpec_decomp rest.tail inner r hf
          have hrr : ∀ x ∈ r, isLineTerminator x = false := fun x m =>
            htl x (by rw [hdec]; exact List.mem_append_right _ (by simp [m]))
          have hlen : r.length ≤ n := by
            have h1 := findCloseSpec_length rest.tail inner r hf
            have h2 : rest.tail.length ≤ rest.length := by
              simp only [List.length_tail]; omega
            omega
          rw [boldAux_cons_open c rest inner r hop (hfc.trans hf),
            boldSpec_cons_open c rest inner r hop hf, ih r hlen hrr]
      · rw [boldAux_cons_plain c rest hop, boldSpec_cons_plain c rest hop,
          ih rest hlrest hr]

theorem boldAux_eq_spec (l : List Char)
    (h : ∀ x ∈ l, isLineTerminator x = false) : boldAux l = boldSpec l :=
  boldAux_eq_spec_aux l.length l le_rfl h

theorem boldAux_append_term_aux :
    ∀ n l₁, l₁.length ≤ n → ∀ t l₂, (∀ x ∈ l₁, isLineTerminator x = false) →
      isLineTerminator t = true →
      boldAux (l₁ ++ t :: l₂) = boldAux l₁ ++ t :: boldAux l₂ := by
  intro n
  induction n with
  | zero =>
    intro l₁ hl t l₂ _ ht
    have hnil : l₁ = [] := List.eq_nil_of_length_eq_zero (by omega)
    subst hnil
    rw [List.nil_append, boldAux_nil, List.nil_append,
      boldAux_cons_plain t l₂
        (by rintro ⟨h, -⟩; rw [h] at ht; exact absurd ht (by decide))]
  | succ n ih =>
    intro l₁ hl t l₂ hmem ht
    cases l₁ with
    | nil =>
      rw [List.nil_append, boldAux_nil, List.nil_append,
        boldAux_cons_plain t l₂
          (by rintro ⟨h, -⟩; rw [h] at ht; exact absurd ht (by decide))]
    | cons c rest =>
      have hr : ∀ x ∈ rest, isLineTerminator x = false :=
        fun x m => hmem x (List.mem_cons_of_mem c m)
      have hlrest : rest.length ≤ n := by
        simp only [List.length_cons] at hl; omega
      by_cases hop : c = '*' ∧ rest.head? = some '*'
      · obtain ⟨hc', hr0⟩ := hop
        subst hc'
        cases rest with
        | nil => simp at hr0
        | cons r0 rs =>
          simp only [List.head?_cons, Option.some.injEq] at hr0
          subst hr0
          have hrs : ∀ x ∈ rs, isLineTerminator x = false :=
            fun x m => hr x (List.mem_cons_of_mem '*' m)
          have happ := findClose_append_term rs t l₂ hrs ht
          have hop1 : ('*' : Char) = '*' ∧ (('*' :: rs).head? = some '*') :=
            ⟨rfl, rfl⟩
          have hop2 : ('*' : Char) = '*' ∧
              (('*' :: (rs ++ t :: l₂)).head? = some '*') := ⟨rfl, rfl⟩
          rcases hf : findClose rs with - | ⟨inner, r⟩
          · have hf' : findClose (rs ++ t :: l₂) = none := by
              rw [happ, hf]; rfl
            have lhs : boldAux (('*' :: '*' :: rs) ++ t :: l₂) =
                '*' :: boldAux (('*' :: rs) ++ t :: l₂) := by
              rw [show ('*' :: '*' :: rs) ++ t :: l₂ =
                '*' :: '*' :: (rs ++ t :: l₂) from rfl]
              exact boldAux_cons_noclose '*' ('*' :: (rs ++ t :: l₂)) hop2 hf'
            rw [lhs, boldAux_cons_noclose '*' ('*' :: rs) hop1 hf]
            have hstar : ∀ x ∈ '*' :: rs, isLineTerminator x = false := by
              intro x m
              rcases List.mem_cons.mp m with h | h
              · rw [h]; decide
              · exact hrs x h
            have hlen2 : ('*' :: rs).length ≤ n := by
              simp only [List.length_cons] at hl ⊢; omega
            rw [ih ('*' :: rs) hlen2 t l₂ hstar ht]
            rfl
          · have hf' : findClose (rs ++ t :: l₂) =
                some (inner, r ++ t :: l₂) := by
              rw [happ, hf]; rfl
            have lhs : boldAux (('*' :: '*' :: rs) ++ t :: l₂) =
                "<strong>".toList ++ inner ++ "</strong>".toList ++
                  boldAux (r ++ t :: l₂) := by
              rw [show ('*' :: '*' :: rs) ++ t :: l₂ =
                '*' :: '*' :: (rs ++ t :: l₂) from rfl]
              exact boldAux_cons_open '*' ('*' :: (rs ++ t :: l₂)) inner
                (r ++ t :: l₂) hop2 hf'
            rw [lhs, boldAux_cons_open '*' ('*' :: rs) inner r hop1 hf]
            have hdec := findClose_decomp rs inner r hf
            have hrr : ∀ x ∈ r, isLineTerminator x = false := fun x m =>
              hrs x (by rw [hdec]; exact List.mem_append_right _ (by simp [m]))
            have hlen2 : r.length ≤ n := by
              have h1 := findClose_length rs inner r hf
              simp only [List.length_cons] at hl
              omega
            rw [ih r hlen2 t l₂ hrr ht]
            simp [List.append_assoc]
      · have hop' : ¬ (c = '*' ∧ (rest ++ t :: l₂).head? = some '*') := by
          rintro ⟨h1, h2⟩
          apply hop
          refine ⟨h1, ?_⟩
          cases rest with
          | nil =>
            simp only [List.nil_append, List.head?_cons, Option.some.injEq] at h2
            rw [h2] at ht
            exact absurd ht (by decide)
          | cons r0 rs => simpa using h2
        rw [List.cons_append, boldAux_cons_plain c (rest ++ t :: l₂) ?hplain,
          boldAux_cons_plain c rest hop, ih rest hlrest t l₂ hr ht]
        · rfl
        case hplain =>
          intro hcontra
          rcases hcontra with ⟨h1, h2⟩
          exact hop' ⟨h1, h2⟩

theorem boldAux_append_term (l₁ : List Char) (t : Char) (l₂ : List Char)
    (h : ∀ x ∈ l₁, isLineTerminator x = false) (ht : isLineTerminator t = true) :
    boldAux (l₁ ++ t :: l₂) = boldAux l₁ ++ t :: boldAux l₂ :=
  boldAux_append_term_aux l₁.length l₁ le_rfl t l₂ h ht

theorem brRep_append : ∀ x y, brRep (x ++ y) = brRep x ++ brRep y := by
  intro x y
  induction x with
  | nil => rfl
  | cons c rest ih => simp [brRep, ih, List.append_assoc]

theorem brRep_no_newline : ∀ x, '\n' ∉ x → brRep x = x := by
  intro x
  induction x with
  | nil => intro _; rfl
  | cons c rest ih =>
    intro hmem
    have hc : ¬ c = '\n' := fun e => hmem (by simp [e])
    have hr : '\n' ∉ rest := fun m => hmem (List.mem_cons_of_mem c m)
    simp [brRep, if_neg hc, ih hr]

theorem brRep_cons_term (c : Char) (x : List Char) :
    brRep (c :: x) = termRep c ++ brRep x := rfl

theorem segsLT_noterm :
    ∀ l, (∀ x ∈ l, isLineTerminator x = false) → segsLT l = (l, []) := by
  intro l
  induction l with
  | nil => intro _; rfl
  | cons c rest ih =>
    intro hmem
    have hc : ¬ isLineTerminator c = true := by
      simp [hmem c (List.mem_cons_self c rest)]
    have hr : ∀ x ∈ rest, isLineTerminator x = false :=
      fun x m => hmem x (List.mem_cons_of_mem c m)
    simp [segsLT, if_neg hc, ih hr]

theorem segsLT_append :
    ∀ l₁ t l₂, (∀ x ∈ l₁, isLineTerminator x = false) →
      isLineTerminator t = true →
      segsLT (l₁ ++ t :: l₂) =
        (l₁, (t, (segsLT l₂).1) :: (segsLT l₂).2) := by
  intro l₁ t l₂
  induction l₁ with
  | nil => intro _ ht; simp [segsLT, ht]
  | cons c rest ih =>
    intro hmem ht
    have hc : ¬ isLineTerminator c = true := by
      simp [hmem c (List.mem_cons_self c rest)]
    have hr : ∀ x ∈ rest, isLineTerminator x = false :=
      fun x m => hmem x (List.mem_cons_of_mem c m)
    simp [segsLT, if_neg hc, ih hr ht]

theorem exists_first_term :
    ∀ l : List Char, (∀ x ∈ l, isLineTerminator x = false) ∨
      ∃ l₁ t l₂, l = l₁ ++ t :: l₂ ∧ isLineTerminator t = true ∧
        ∀ x ∈ l₁, isLineTerminator x = false := by
  intro l
  induction l with
  | nil => left; intro x m; exact absurd m (List.not_mem_nil x)
  | cons c rest ih =>
    cases hc : isLineTerminator c with
    | true =>
      right
      exact ⟨[], c, rest, by simp, hc, fun x m => absurd m (List.not_mem_nil x)⟩
    | false =>
      rcases ih with h | ⟨l₁, t, l₂, heq, ht, hmem⟩
      · left
        intro x m
        rcases List.mem_cons.mp m with h1 | h1
        · rw [h1]; exact hc
        · exact h x h1
      · right
        refine ⟨c :: l₁, t, l₂, by simp [heq], ht, ?_⟩
        intro x m
        rcases List.mem_cons.mp m with h1 | h1
        · rw [h1]; exact hc
        · exact hmem x h1

theorem brRep_boldAux_aux :
    ∀ n l, l.length ≤ n →
      brRep (boldAux l) =
        boldSpec (segsLT l).1 ++
          ((segsLT l).2.map fun p => termRep p.1 ++ boldSpec p.2).flatten := by
  intro n
  induction n with
  | zero =>
    intro l hl
    have hnil : l = [] := List.eq_nil_of_length_eq_zero (by omega)
    subst hnil
    rw [boldAux_nil]
    simp [brRep, segsLT, boldSpec_nil]
  | succ n ih =>
    intro l hl
    rcases exists_first_term l with hno | ⟨l₁, t, l₂, heq, ht, hmem⟩
    · rw [boldAux_eq_spec l hno,
        brRep_no_newline _ (boldSpec_no_newline l (no_newline_of_noterm l hno)),
        segsLT_noterm l hno]
      simp
    · subst heq
      have hlen2 : l₂.length ≤ n := by
        simp only [List.length_append, List.length_cons] at hl; omega
      rw [boldAux_append_term l₁ t l₂ hmem ht, brRep_append, brRep_cons_term,
        segsLT_append l₁ t l₂ hmem ht,
        boldAux_eq_spec l₁ hmem,
        brRep_no_newline _ (boldSpec_no_newline l₁ (no_newline_of_noterm l₁ hmem)),
        ih l₂ hlen2]
      simp [List.append_assoc]

theorem brRep_boldAux (l : List Char) :
    brRep (boldAux l) =
      boldSpec (segsLT l).1 ++
        ((segsLT l).2.map fun p => termRep p.1 ++ boldSpec p.2).flatten :=
  brRep_boldAux_aux l.length l le_rfl

/-- C6 counterexample: on the completion text "**a\nb**" the code's
transform leaves the `**` markers untouched (the regex capture cannot
cross a line terminator), while the claim's transform — every occurrence
of `**x**` becomes `<strong>x</strong>`, every newline becomes `<br/>` —
would bold it; the two outputs differ.  The carriage-return input
"**a\rb**" shows the blocking is not limited to `\n`: the code leaves it
entirely unchanged while the unrestricted replacement would bold it. -/
theorem markdown_bold_newline_div :
    displayedSummary "**a\nb**" = "**a<br/>b**" ∧
    displayedSummarySpec "**a\nb**" = "<strong>a<br/>b</strong>" ∧
    displayedSummary "**a\nb**" ≠ displayedSummarySpec "**a\nb**" ∧
    displayedSummary "**a\rb**" = "**a\rb**" ∧
    displayedSummarySpec "**a\rb**" = "<strong>a\rb</strong>" := by
  have ht : (jsTrim "**a\nb**").toList = ['*', '*', 'a', '\n', 'b', '*', '*'] := by
    decide
  have ht2 : (jsTrim "**a\rb**").toList = ['*', '*', 'a', '\r', 'b', '*', '*'] := by
    decide
  have hb : boldAux ['*', '*', 'a', '\n', 'b', '*', '*'] =
      ['*', '*', 'a', '\n', 'b', '*', '*'] := by
    simp [boldAux, findClose, isLineTerminator]
  have hb2 : boldAux ['*', '*', 'a', '\r', 'b', '*', '*'] =
      ['*', '*', 'a', '\r', 'b', '*', '*'] := by
    simp [boldAux, findClose, isLineTerminator]
  have hcl : findCloseSpec ['a', '\n', 'b', '*', '*'] =
      some (['a', '\n', 'b'], []) := rfl
  have hcl2 : findCloseSpec ['a', '\r', 'b', '*', '*'] =
      some (['a', '\r', 'b'], []) := rfl
  have hs := boldSpec_cons_open '*' ['*', 'a', '\n', 'b', '*', '*']
    ['a', '\n', 'b'] [] ⟨rfl, rfl⟩ hcl
  have hs2 := boldSpec_cons_open '*' ['*', 'a', '\r', 'b', '*', '*']
    ['a', '\r', 'b'] [] ⟨rfl, rfl⟩ hcl2
  have h1 : displayedSummary "**a\nb**" = "**a<br/>b**" := by
    show String.mk (brRep (boldAux (jsTrim "**a\nb**").toList)) = "**a<br/>b**"
    rw [ht, hb]
    decide
  have h2 : displayedSummarySpec "**a\nb**" = "<strong>a<br/>b</strong>" := by
    show String.mk (brRep (boldSpec (jsTrim "**a\nb**").toList)) =
      "<strong>a<br/>b</strong>"
    rw [ht, hs, boldSpec_nil]
    decide
  have h4 : displayedSummary "**a\rb**" = "**a\rb**" := by
    show String.mk (brRep (boldAux (jsTrim "**a\rb**").toList)) = "**a\rb**"
    rw [ht2, hb2]
    decide
  have h5 : displayedSummarySpec "**a\rb**" = "<strong>a\rb</strong>" := by
    show String.mk (brRep (boldSpec (jsTrim "**a\rb**").toList)) =
      "<strong>a\rb</strong>"
    rw [ht2, hs2, boldSpec_nil]
    decide
  exact ⟨h1, h2, by rw [h1, h2]; decide, h4, h5⟩

/-- C6 amended: for every completion text, the displayed summary equals
the trimmed text split at line terminators (LF, CR, U+2028, U+2029),
with every occurrence of `**x**` replaced by `<strong>x</strong>` within
each terminator-free segment — the bold replacement never crosses a line
terminator — and the segments rejoined with each newline rendered as
`<br/>` and the other terminators kept as they are; no other
transformation is applied. -/
theorem markdown_transform (content : String) :
    displayedSummary content = displayedSummaryAmended content := by
  show String.mk (brRep (boldAux (jsTrim content).toList)) =
    String.mk (boldSpec (segsLT (jsTrim content).toList).1 ++
      ((segsLT (jsTrim content).toList).2.map
        fun p => termRep p.1 ++ boldSpec p.2).flatten)
  exact congrArg String.mk (brRep_boldAux (jsTrim content).toList)
